import Mathlib

/-!
Verification development for the kylaris market-data and indicator engine.

The embedding is shallow: Python floats are modelled by `ℚ`, UTC datetimes by
their epoch value in seconds as a `ℚ` (the sub-second part is the fractional
part), `None`-able floats by `Option ℚ`, and Python lists by `List`.  The
Binance HTTP upstream is abstracted as a function from the request start
cursor (epoch milliseconds) to the page of kline rows it returns; the
pagination loop of `BinancePriceProvider.fetch` is embedded with explicit
fuel, returning `none` only on fuel exhaustion, together with the number of
upstream requests issued.
-/

namespace Kylaris

/-- One OHLCV bar (`core/types.py` / `core/price.py`, class `PriceRepresentable`).
The market-identifier field is omitted: no operation modelled here reads it. -/
structure PriceRepresentable where
  timestamp : ℚ
  open_price : ℚ
  high_price : ℚ
  low_price : ℚ
  close_price : ℚ
  volume : ℚ
deriving DecidableEq

/-! ## Time utilities (`core/utilities.py`)

A `datetime` is its epoch value in seconds, as a rational.  Python's `int()`
truncates toward zero, which is floor for non-negative values and ceiling for
negative ones. -/

/-- Python `int(q)`: truncation toward zero. -/
def pyInt (q : ℚ) : ℤ :=
  if 0 ≤ q then ⌊q⌋ else ⌈q⌉

/-- `datatime_to_seconds(time) = int(time.timestamp())`. -/
def datatime_to_seconds (time : ℚ) : ℤ :=
  pyInt time

/-- `datatime_to_milliseconds(time) = datatime_to_seconds(time) * 1000`. -/
def datatime_to_milliseconds (time : ℚ) : ℤ :=
  datatime_to_seconds time * 1000

/-- `milliseconds_to_datatime(ms) = datetime.fromtimestamp(ms / 1000.0, utc)`,
i.e. the datetime whose epoch value in seconds is `ms / 1000`. -/
def milliseconds_to_datatime (milliseconds : ℤ) : ℚ :=
  (milliseconds : ℚ) / 1000

/-! ## Indicator engine (`core/indicators.py`) -/

/-- The `for price in values[period:]` loop of `exponential_moving_average`:
each step emits `alpha * price + (1 - alpha) * previous_moving_average` and
carries it as the new running average. -/
def emaLoop (alpha : ℚ) : ℚ → List ℚ → List ℚ
  | _, [] => []
  | previous, v :: vs =>
    let m := alpha * v + (1 - alpha) * previous
    m :: emaLoop alpha m vs

/-- `exponential_moving_average` acting on the extracted close prices.  The
source first maps each bar to its close price; everything after that point
only touches the list of values, which is what this function embeds. -/
def ema_values (values : List ℚ) (period : ℕ) : List (Option ℚ) :=
  let previous_moving_average : ℚ := (values.take period).sum / (period : ℚ)
  let alpha : ℚ := 2 / ((period : ℚ) + 1)
  List.replicate (period - 1) none ++ some previous_moving_average ::
    (emaLoop alpha previous_moving_average (values.drop period)).map some

/-- `exponential_moving_average(prices, period)` from `core/indicators.py`. -/
def exponential_moving_average (prices : List PriceRepresentable) (period : ℕ) :
    List (Option ℚ) :=
  ema_values (prices.map (fun p => p.close_price)) period

/-- The RSI output formula:
`100.0 if average_loss == 0.0 else 100.0 - (100.0 / (1.0 + average_gain / average_loss))`. -/
def rsiVal (average_gain average_loss : ℚ) : ℚ :=
  if average_loss = 0 then 100 else 100 - 100 / (1 + average_gain / average_loss)

/-- The `for value in range(period + 1, len(values))` loop of
`relative_strength_index`: Wilder smoothing of the running averages, emitting
one RSI value per remaining (gain, loss) pair. -/
def rsiLoop (period : ℕ) : ℚ → ℚ → List (ℚ × ℚ) → List (Option ℚ)
  | _, _, [] => []
  | average_gain, average_loss, gl :: rest =>
    let g := (average_gain * ((period : ℚ) - 1) + gl.1) / (period : ℚ)
    let l := (average_loss * ((period : ℚ) - 1) + gl.2) / (period : ℚ)
    some (rsiVal g l) :: rsiLoop period g l rest

/-- Per-step gains of `relative_strength_index`: a leading `0.0`, then
`max(values[i] - values[i-1], 0.0)` for each consecutive pair. -/
def rsiGains (values : List ℚ) : List ℚ :=
  0 :: List.zipWith (fun previous current => max (current - previous) 0) values values.tail

/-- Per-step losses of `relative_strength_index`: a leading `0.0`, then
`max(-(values[i] - values[i-1]), 0.0)` for each consecutive pair. -/
def rsiLosses (values : List ℚ) : List ℚ :=
  0 :: List.zipWith (fun previous current => max (previous - current) 0) values values.tail

/-- `relative_strength_index(prices, period)` from `core/indicators.py`. -/
def relative_strength_index (prices : List PriceRepresentable) (period : ℕ) :
    List (Option ℚ) :=
  let values := prices.map (fun p => p.close_price)
  let gains := rsiGains values
  let losses := rsiLosses values
  let average_gain := ((gains.drop 1).take period).sum / (period : ℚ)
  let average_loss := ((losses.drop 1).take period).sum / (period : ℚ)
  List.replicate period none ++ some (rsiVal average_gain average_loss) ::
    rsiLoop period average_gain average_loss
      ((gains.drop (period + 1)).zip (losses.drop (period + 1)))

/-- The list-comprehension combiner used for both the MACD line and the
histogram: `None if (a is None or b is None) else a - b`. -/
def subtractDefined : Option ℚ → Option ℚ → Option ℚ
  | some a, some b => some (a - b)
  | _, _ => none

/-- `moving_average_convergence_divergence(prices, fast, slow, signal)` from
`core/indicators.py`.  The source re-wraps each defined MACD value into a
`PriceRepresentable` whose close price is the value before handing it to
`exponential_moving_average`, which immediately re-extracts the close prices;
the composition is `ema_values` on the defined values themselves. -/
def moving_average_convergence_divergence (prices : List PriceRepresentable)
    (fast_period slow_period signal_period : ℕ) :
    List (Option ℚ) × List (Option ℚ) × List (Option ℚ) :=
  let moving_average_fast := exponential_moving_average prices fast_period
  let moving_average_slow := exponential_moving_average prices slow_period
  let moving_average_line := List.zipWith subtractDefined moving_average_fast moving_average_slow
  let signal_values := ema_values (moving_average_line.filterMap id) signal_period
  let signal_line :=
    List.replicate (moving_average_line.length - signal_values.length) none ++ signal_values
  let histgram := List.zipWith subtractDefined moving_average_line signal_line
  (moving_average_line, signal_line, histgram)

/-! ## Market data fetcher (`core/price.py`, `BinancePriceProvider.fetch`)

The upstream is a function from the `startTime` request parameter (epoch
milliseconds) to the kline rows of the page; the remaining request
parameters (symbol, interval token, `endTime = end - 1`, limit) are fixed
for the whole fetch and are considered baked into that function. -/

/-- One kline row of the Binance response:
`[0] openTime(ms), [1] open, [2] high, [3] low, [4] close, [5] volume, [6] closeTime(ms)`. -/
structure Kline where
  openTime : ℤ
  openPrice : ℚ
  highPrice : ℚ
  lowPrice : ℚ
  closePrice : ℚ
  volume : ℚ
  closeTime : ℤ
deriving DecidableEq

/-- The fields of `PriceProviderContext` that `fetch` reads: the time range
(epoch seconds, sub-second parts allowed) and the optional limit. -/
structure PriceProviderContext where
  start_time : ℚ
  end_time : ℚ
  limit : Option ℕ
deriving DecidableEq

/-- Conversion of one kline row into a `PriceRepresentable`
(`fetch` uses the row's open time as the canonical timestamp). -/
def klineToPrice (k : Kline) : PriceRepresentable :=
  { timestamp := milliseconds_to_datatime k.openTime
    open_price := k.openPrice
    high_price := k.highPrice
    low_price := k.lowPrice
    close_price := k.closePrice
    volume := k.volume }

/-- The early-stop test `context.limit is not None and len(prices) > context.limit`. -/
def limitExceeded (limit : Option ℕ) (count : ℕ) : Bool :=
  match limit with
  | none => false
  | some l => decide (l < count)

/-- The `for content in contents` body of `fetch`: append each converted row,
returning `.inl` with the accumulation so far if the early-stop test fires
after an append (the source's `return prices`), `.inr` otherwise. -/
def appendPage (limit : Option ℕ) : List PriceRepresentable → List Kline →
    List PriceRepresentable ⊕ List PriceRepresentable
  | acc, [] => .inr acc
  | acc, k :: ks =>
    let acc2 := acc ++ [klineToPrice k]
    if limitExceeded limit acc2.length then .inl acc2 else appendPage limit acc2 ks

/-- `sorted(prices, key=lambda price: price.timestamp)`. -/
def sortPrices (prices : List PriceRepresentable) : List PriceRepresentable :=
  prices.mergeSort (fun a b => decide (a.timestamp ≤ b.timestamp))

/-- `int(contents[-1][6]) + 1`: the cursor for the next page. -/
def nextCursor (contents : List Kline) : ℤ :=
  (match contents.getLast? with
   | some k => k.closeTime
   | none => 0) + 1

/-- The `while next_start_time <= end_time` loop of `fetch`, with explicit
fuel.  Returns the fetched list together with the number of upstream requests
issued, or `none` when the fuel runs out.  The three `some` exits mirror the
source's three exits: loop condition false (sorted), empty page `break`
(sorted), and the early `return prices` inside the row loop (unsorted). -/
def fetchLoop (upstream : ℤ → List Kline) (endTime : ℤ) (limit : Option ℕ) :
    ℕ → ℤ → List PriceRepresentable → ℕ → Option (List PriceRepresentable × ℕ)
  | 0, _, _, _ => none
  | fuel + 1, cursor, acc, calls =>
    if cursor ≤ endTime then
      match upstream cursor with
      | [] => some (sortPrices acc, calls + 1)
      | k :: ks =>
        match appendPage limit acc (k :: ks) with
        | .inl early => some (early, calls + 1)
        | .inr acc2 => fetchLoop upstream endTime limit fuel (nextCursor (k :: ks)) acc2 (calls + 1)
    else
      some (sortPrices acc, calls)

/-- `BinancePriceProvider.fetch(context)`: convert the range to epoch
milliseconds and run the pagination loop from the start cursor with an empty
accumulation. -/
def fetch (upstream : ℤ → List Kline) (context : PriceProviderContext) (fuel : ℕ) :
    Option (List PriceRepresentable × ℕ) :=
  fetchLoop upstream (datatime_to_milliseconds context.end_time) context.limit fuel
    (datatime_to_milliseconds context.start_time) [] 0

/-- A bar with a given close price; helper for concrete test series
(only the close price feeds the indicator computations). -/
def mkBar (close : ℚ) : PriceRepresentable :=
  { timestamp := 0, open_price := close, high_price := close, low_price := close
    close_price := close, volume := 0 }

/-- Upstream returning a two-row page at cursor 0 and nothing later. -/
def pageTwoRows : ℤ → List Kline := fun c =>
  if c = 0 then [⟨1000, 1, 1, 1, 1, 1, 1999⟩, ⟨2000, 2, 2, 2, 2, 2, 2999⟩] else []

/-- Upstream producing the same open time on two consecutive pages. -/
def upDup : ℤ → List Kline := fun c =>
  if c = 0 then [⟨3000, 1, 1, 1, 1, 1, 4000⟩]
  else if c = 4001 then [⟨3000, 2, 2, 2, 2, 2, 20000⟩] else []

/-- Upstream returning one descending two-row page at cursor 0. -/
def upDescending : ℤ → List Kline := fun c =>
  if c = 0 then [⟨5000, 1, 1, 1, 1, 1, 5999⟩, ⟨3000, 2, 2, 2, 2, 2, 3999⟩] else []

/-! ## Length facts about the indicator engine -/

theorem emaLoop_length (alpha previous : ℚ) (vs : List ℚ) :
    (emaLoop alpha previous vs).length = vs.length := by
  induction vs generalizing previous with
  | nil => rfl
  | cons v vs ih => simp [emaLoop, ih]

theorem ema_values_length (values : List ℚ) (period : ℕ) (hp : 1 ≤ period) :
    (ema_values values period).length = max values.length period := by
  simp only [ema_values, List.length_append, List.length_replicate, List.length_cons,
    List.length_map, emaLoop_length, List.length_drop]
  omega

theorem exponential_moving_average_length (prices : List PriceRepresentable) (period : ℕ)
    (hp : 1 ≤ period) :
    (exponential_moving_average prices period).length = max prices.length period := by
  simpa [exponential_moving_average] using
    ema_values_length (prices.map (fun p => p.close_price)) period hp

theorem rsiLoop_length (period : ℕ) (g l : ℚ) (pairs : List (ℚ × ℚ)) :
    (rsiLoop period g l pairs).length = pairs.length := by
  induction pairs generalizing g l with
  | nil => rfl
  | cons gl rest ih => simp [rsiLoop, ih]

theorem rsiGains_length (values : List ℚ) :
    (rsiGains values).length = 1 + (values.length - 1) := by
  simp only [rsiGains, List.length_cons, List.length_zipWith, List.length_tail]
  omega

theorem rsiLosses_length (values : List ℚ) :
    (rsiLosses values).length = 1 + (values.length - 1) := by
  simp only [rsiLosses, List.length_cons, List.length_zipWith, List.length_tail]
  omega

theorem relative_strength_index_length (prices : List PriceRepresentable) (period : ℕ) :
    (relative_strength_index prices period).length
      = period + 1 + (1 + (prices.length - 1) - (period + 1)) := by
  simp only [relative_strength_index, List.length_append, List.length_replicate,
    List.length_cons, rsiLoop_length, List.length_zip, rsiGains_length, rsiLosses_length,
    List.length_drop, List.length_map]
  omega

/-! ## MACD components, named after the locals of the source function -/

theorem macd_line_eq (prices : List PriceRepresentable) (f s g : ℕ) :
    (moving_average_convergence_divergence prices f s g).1
      = List.zipWith subtractDefined (exponential_moving_average prices f)
          (exponential_moving_average prices s) := rfl

theorem macd_line_length (prices : List PriceRepresentable) (f s g : ℕ)
    (hf : 1 ≤ f) (hs : 1 ≤ s) (hfn : f ≤ prices.length) (hsn : s ≤ prices.length) :
    (moving_average_convergence_divergence prices f s g).1.length = prices.length := by
  rw [macd_line_eq, List.length_zipWith,
    exponential_moving_average_length prices f hf, exponential_moving_average_length prices s hs]
  omega

theorem macd_signal_length (prices : List PriceRepresentable) (f s g : ℕ)
    (hf : 1 ≤ f) (hs : 1 ≤ s) (hg : 1 ≤ g)
    (hfn : f ≤ prices.length) (hsn : s ≤ prices.length) (hgn : g ≤ prices.length) :
    (moving_average_convergence_divergence prices f s g).2.1.length = prices.length := by
  show (List.replicate _ none ++ _).length = _
  rw [List.length_append, List.length_replicate]
  have hline := macd_line_length prices f s g hf hs hfn hsn
  rw [macd_line_eq] at hline
  have hm := List.length_filterMap_le (id : Option ℚ → Option ℚ)
    (List.zipWith subtractDefined (exponential_moving_average prices f)
      (exponential_moving_average prices s))
  have hsv := ema_values_length
    ((List.zipWith subtractDefined (exponential_moving_average prices f)
      (exponential_moving_average prices s)).filterMap id) g hg
  rw [hline, hsv]
  omega

theorem macd_histgram_length (prices : List PriceRepresentable) (f s g : ℕ)
    (hf : 1 ≤ f) (hs : 1 ≤ s) (hg : 1 ≤ g)
    (hfn : f ≤ prices.length) (hsn : s ≤ prices.length) (hgn : g ≤ prices.length) :
    (moving_average_convergence_divergence prices f s g).2.2.length = prices.length := by
  show (List.zipWith subtractDefined
      (moving_average_convergence_divergence prices f s g).1
      (moving_average_convergence_divergence prices f s g).2.1).length = _
  rw [List.length_zipWith, macd_line_length prices f s g hf hs hfn hsn,
    macd_signal_length prices f s g hf hs hg hfn hsn hgn]
  omega

/-- C1: the length-equality contract.  The claim as frozen is refuted at
`len(S) = period` for `relative_strength_index`: the code always emits
`period` leading `None`s plus a first value, so a two-bar series with
`period = 2` yields three entries, not two. -/
theorem C1_counterexample :
    (relative_strength_index [mkBar 1, mkBar 2] 2).length
      ≠ ([mkBar 1, mkBar 2] : List PriceRepresentable).length := by
  decide

/-- C1 (amended): with `1 ≤ p ≤ len(S)`, `exponential_moving_average` and all
three sequences of `moving_average_convergence_divergence` have length
`len(S)`; `relative_strength_index` has length `len(S)` only when
`len(S) ≥ p + 1`, and length `len(S) + 1` when `len(S) = p`. -/
theorem C1_length_contract (prices : List PriceRepresentable) (p f s g : ℕ)
    (hp : 1 ≤ p) (hpn : p ≤ prices.length)
    (hf : 1 ≤ f) (hfn : f ≤ prices.length)
    (hs : 1 ≤ s) (hsn : s ≤ prices.length)
    (hg : 1 ≤ g) (hgn : g ≤ prices.length) :
    (exponential_moving_average prices p).length = prices.length
    ∧ (p + 1 ≤ prices.length →
        (relative_strength_index prices p).length = prices.length)
    ∧ (prices.length = p →
        (relative_strength_index prices p).length = prices.length + 1)
    ∧ (moving_average_convergence_divergence prices f s g).1.length = prices.length
    ∧ (moving_average_convergence_divergence prices f s g).2.1.length = prices.length
    ∧ (moving_average_convergence_divergence prices f s g).2.2.length = prices.length := by
  refine ⟨?_, ?_, ?_, macd_line_length prices f s g hf hs hfn hsn,
    macd_signal_length prices f s g hf hs hg hfn hsn hgn,
    macd_histgram_length prices f s g hf hs hg hfn hsn hgn⟩
  · rw [exponential_moving_average_length prices p hp]; omega
  · intro h; rw [relative_strength_index_length]; omega
  · intro h; rw [relative_strength_index_length]; omega

/-- Witness for C1 on a concrete three-bar series with all periods 2. -/
theorem C1_length_contract_witness :
    (exponential_moving_average [mkBar 1, mkBar 2, mkBar 3] 2).length
        = ([mkBar 1, mkBar 2, mkBar 3] : List PriceRepresentable).length
    ∧ (2 + 1 ≤ ([mkBar 1, mkBar 2, mkBar 3] : List PriceRepresentable).length →
        (relative_strength_index [mkBar 1, mkBar 2, mkBar 3] 2).length
          = ([mkBar 1, mkBar 2, mkBar 3] : List PriceRepresentable).length)
    ∧ (([mkBar 1, mkBar 2, mkBar 3] : List PriceRepresentable).length = 2 →
        (relative_strength_index [mkBar 1, mkBar 2, mkBar 3] 2).length
          = ([mkBar 1, mkBar 2, mkBar 3] : List PriceRepresentable).length + 1)
    ∧ (moving_average_convergence_divergence [mkBar 1, mkBar 2, mkBar 3] 2 2 2).1.length
        = ([mkBar 1, mkBar 2, mkBar 3] : List PriceRepresentable).length
    ∧ (moving_average_convergence_divergence [mkBar 1, mkBar 2, mkBar 3] 2 2 2).2.1.length
        = ([mkBar 1, mkBar 2, mkBar 3] : List PriceRepresentable).length
    ∧ (moving_average_convergence_divergence [mkBar 1, mkBar 2, mkBar 3] 2 2 2).2.2.length
        = ([mkBar 1, mkBar 2, mkBar 3] : List PriceRepresentable).length :=
  C1_length_contract [mkBar 1, mkBar 2, mkBar 3] 2 2 2 2
    (by decide) (by decide) (by decide) (by decide) (by decide) (by decide)
    (by decide) (by decide)

/-- C3: the claim that indicators fail with `InsufficientHistory` when
`len(S) < period` is refuted: the source has no such check — with a single
bar and `period = 2` both functions return (partially defined) series. -/
theorem C3_counterexample :
    exponential_moving_average [mkBar 10] 2 = [none, some 5]
    ∧ relative_strength_index [mkBar 10] 2 = [none, none, some 100] := by
  constructor
  · norm_num [exponential_moving_average, ema_values, emaLoop, mkBar, List.replicate]
  · norm_num [relative_strength_index, rsiGains, rsiLosses, rsiLoop, rsiVal, mkBar,
      List.replicate]

/-- C3 (amended): no indicator operation fails on short input.  With
`len(S) < p` (`p ≥ 1`), `exponential_moving_average` returns a length-`p`
series whose entry at `p - 1` is `sum(closes)/p`, `relative_strength_index`
returns a length-`(p+1)` series, and `moving_average_convergence_divergence`
likewise returns series (its MACD line has length `p` for periods all `p`). -/
theorem C3_no_insufficient_history_check (prices : List PriceRepresentable) (p : ℕ)
    (hp : 1 ≤ p) (hlt : prices.length < p) :
    (exponential_moving_average prices p).length = p
    ∧ (relative_strength_index prices p).length = p + 1
    ∧ (moving_average_convergence_divergence prices p p p).1.length = p := by
  refine ⟨?_, ?_, ?_⟩
  · rw [exponential_moving_average_length prices p hp]; omega
  · rw [relative_strength_index_length]; omega
  · rw [macd_line_eq, List.length_zipWith, exponential_moving_average_length prices p hp]
    omega

/-- Witness for C3 at a one-bar series and period 2. -/
theorem C3_no_insufficient_history_check_witness :
    (exponential_moving_average [mkBar 10] 2).length = 2
    ∧ (relative_strength_index [mkBar 10] 2).length = 2 + 1
    ∧ (moving_average_convergence_divergence [mkBar 10] 2 2 2).1.length = 2 :=
  C3_no_insufficient_history_check [mkBar 10] 2 (by decide) (by decide)

/-! ## Positional facts about `ema_values` -/

theorem ema_values_eq (values : List ℚ) (period : ℕ) :
    ema_values values period
      = List.replicate (period - 1) none ++
          ((values.take period).sum / (period : ℚ) ::
            emaLoop (2 / ((period : ℚ) + 1)) ((values.take period).sum / (period : ℚ))
              (values.drop period)).map some := by
  simp [ema_values]

theorem ema_values_getD_undefined (values : List ℚ) (period i : ℕ) (hi : i + 1 < period) :
    (ema_values values period).getD i none = none := by
  rw [ema_values_eq, List.getD_eq_getElem?_getD,
    List.getElem?_append_left (by simp only [List.length_replicate]; omega),
    List.getElem?_replicate]
  have h : i < period - 1 := by omega
  simp [h]

theorem ema_values_getD_shift (values : List ℚ) (period j : ℕ) :
    (ema_values values period).getD (period - 1 + j) none
      = (((values.take period).sum / (period : ℚ) ::
            emaLoop (2 / ((period : ℚ) + 1)) ((values.take period).sum / (period : ℚ))
              (values.drop period)).map some).getD j none := by
  rw [ema_values_eq, List.getD_eq_getElem?_getD,
    List.getElem?_append_right (by simp), List.getD_eq_getElem?_getD]
  have h : period - 1 + j - (List.replicate (period - 1) (none : Option ℚ)).length = j := by
    simp only [List.length_replicate]; omega
  rw [h]

theorem getD_map_some (l : List ℚ) (i : ℕ) (hi : i < l.length) :
    (l.map some).getD i none = some (l.getD i 0) := by
  rw [List.getD_eq_getElem?_getD, List.getD_eq_getElem?_getD, List.getElem?_map,
    List.getElem?_eq_getElem hi]
  simp

theorem getD_map_some_of_ge (l : List ℚ) (i : ℕ) (hi : l.length ≤ i) :
    (l.map some).getD i none = none := by
  rw [List.getD_eq_getElem?_getD, List.getElem?_eq_none (by simpa using hi)]
  simp

/-- The recurrence carried by `emaLoop`, read off the list that starts with the
seed: each entry past the head is `alpha` times the matching input plus
`(1 - alpha)` times the previous entry. -/
theorem emaLoop_cons_getD (alpha : ℚ) :
    ∀ (vs : List ℚ) (previous : ℚ) (j : ℕ), j < vs.length →
      (previous :: emaLoop alpha previous vs).getD (j + 1) 0
        = alpha * vs.getD j 0 + (1 - alpha) * (previous :: emaLoop alpha previous vs).getD j 0
  | [], _, j, hj => absurd hj (by simp)
  | v :: vs, previous, 0, _ => by simp [emaLoop]
  | v :: vs, previous, j + 1, hj => by
    have ih := emaLoop_cons_getD alpha vs (alpha * v + (1 - alpha) * previous) j
      (by simpa using hj)
    simpa [emaLoop] using ih

/-- C2: content of `exponential_moving_average` for `1 ≤ p ≤ len(S)` — `None`
exactly up to index `p - 2`, the simple average of the first `p` closes at
index `p - 1`, and the recurrence `EMA[i] = alpha*close[i] + (1-alpha)*EMA[i-1]`
with `alpha = 2/(p+1)` for `p ≤ i < len(S)`. -/
theorem C2_ema_content (prices : List PriceRepresentable) (p i : ℕ) (w : ℚ)
    (hp : 1 ≤ p) (hpn : p ≤ prices.length) :
    (i + 1 < p → (exponential_moving_average prices p).getD i none = none)
    ∧ (exponential_moving_average prices p).getD (p - 1) none
        = some (((prices.map (fun b => b.close_price)).take p).sum / (p : ℚ))
    ∧ (p - 1 ≤ i → i < prices.length →
        (exponential_moving_average prices p).getD i none ≠ none)
    ∧ (p ≤ i → i < prices.length →
        (exponential_moving_average prices p).getD (i - 1) none = some w →
        (exponential_moving_average prices p).getD i none
          = some ((2 / ((p : ℚ) + 1)) * (prices.map (fun b => b.close_price)).getD i 0
              + (1 - 2 / ((p : ℚ) + 1)) * w)) := by
  set values := prices.map (fun b => b.close_price) with hv
  have hlen : values.length = prices.length := by simp [hv]
  set seed := (values.take p).sum / (p : ℚ) with hseed
  set alpha := 2 / ((p : ℚ) + 1) with halpha
  set L := seed :: emaLoop alpha seed (values.drop p) with hL
  have hLlen : L.length = 1 + (values.length - p) := by
    simp [hL, emaLoop_length]; omega
  refine ⟨fun h => ema_values_getD_undefined values p i h, ?_, ?_, ?_⟩
  · have := ema_values_getD_shift values p 0
    rw [show p - 1 + 0 = p - 1 by omega] at this
    rw [show exponential_moving_average prices p = ema_values values p from rfl, this,
      getD_map_some L 0 (by omega)]
    simp [hL]
  · intro h1 h2
    have hj : i - (p - 1) < L.length := by omega
    have := ema_values_getD_shift values p (i - (p - 1))
    rw [show p - 1 + (i - (p - 1)) = i by omega] at this
    rw [show exponential_moving_average prices p = ema_values values p from rfl, this,
      getD_map_some L _ hj]
    simp
  · intro h1 h2 hw
    have hj1 : i - 1 - (p - 1) < L.length := by omega
    have e1 := ema_values_getD_shift values p (i - 1 - (p - 1))
    rw [show p - 1 + (i - 1 - (p - 1)) = i - 1 by omega] at e1
    rw [show exponential_moving_average prices p = ema_values values p from rfl] at hw
    rw [e1, getD_map_some L _ hj1] at hw
    have hwv : L.getD (i - 1 - (p - 1)) 0 = w := Option.some_injective _ hw
    have e2 := ema_values_getD_shift values p (i - (p - 1))
    rw [show p - 1 + (i - (p - 1)) = i by omega] at e2
    have hj2 : i - (p - 1) < L.length := by omega
    rw [show exponential_moving_average prices p = ema_values values p from rfl, e2,
      getD_map_some L _ hj2]
    have hrec := emaLoop_cons_getD alpha (values.drop p) seed (i - p)
      (by simp; omega)
    rw [show i - p + 1 = i - (p - 1) by omega] at hrec
    rw [show (i - p : ℕ) = i - 1 - (p - 1) by omega] at hrec
    rw [← hL] at hrec
    rw [hrec, hwv]
    congr 2
    rw [List.getD_eq_getElem?_getD, List.getD_eq_getElem?_getD, List.getElem?_drop]
    rw [show p + (i - 1 - (p - 1)) = i by omega]

/-- Witness for C2: the spec's own example, `EMA(period=3)` over closes
`[10, 11, 12, 13]`, instantiated at `i = 3`, `w = 11`. -/
theorem C2_ema_content_witness :
    ((3 : ℕ) + 1 < 3 →
      (exponential_moving_average [mkBar 10, mkBar 11, mkBar 12, mkBar 13] 3).getD 3 none
        = none)
    ∧ (exponential_moving_average [mkBar 10, mkBar 11, mkBar 12, mkBar 13] 3).getD (3 - 1) none
        = some ((([mkBar 10, mkBar 11, mkBar 12, mkBar 13].map
            (fun b => b.close_price)).take 3).sum / ((3 : ℕ) : ℚ))
    ∧ ((3 : ℕ) - 1 ≤ 3 → 3 < ([mkBar 10, mkBar 11, mkBar 12, mkBar 13] :
          List PriceRepresentable).length →
        (exponential_moving_average [mkBar 10, mkBar 11, mkBar 12, mkBar 13] 3).getD 3 none
          ≠ none)
    ∧ ((3 : ℕ) ≤ 3 → 3 < ([mkBar 10, mkBar 11, mkBar 12, mkBar 13] :
          List PriceRepresentable).length →
        (exponential_moving_average [mkBar 10, mkBar 11, mkBar 12, mkBar 13] 3).getD (3 - 1) none
          = some 11 →
        (exponential_moving_average [mkBar 10, mkBar 11, mkBar 12, mkBar 13] 3).getD 3 none
          = some ((2 / (((3 : ℕ) : ℚ) + 1)) * ([mkBar 10, mkBar 11, mkBar 12, mkBar 13].map
              (fun b => b.close_price)).getD 3 0 + (1 - 2 / (((3 : ℕ) : ℚ) + 1)) * 11)) :=
  C2_ema_content [mkBar 10, mkBar 11, mkBar 12, mkBar 13] 3 3 11 (by decide) (by decide)

/-! ## RSI bounds -/

theorem rsiVal_bounds (g l : ℚ) (hg : 0 ≤ g) (hl : 0 ≤ l) :
    0 ≤ rsiVal g l ∧ rsiVal g l ≤ 100 := by
  unfold rsiVal
  split
  · norm_num
  · rename_i hne
    have hquot : 0 ≤ g / l := div_nonneg hg hl
    have h1 : (1 : ℚ) ≤ 1 + g / l := by linarith
    constructor
    · have := div_le_self (by norm_num : (0 : ℚ) ≤ 100) h1
      linarith
    · have : 0 ≤ 100 / (1 + g / l) := div_nonneg (by norm_num) (by linarith)
      linarith

theorem zipWith_nonneg_mem (f : ℚ → ℚ → ℚ) (hf : ∀ a b, 0 ≤ f a b) :
    ∀ (as bs : List ℚ) (x : ℚ), x ∈ List.zipWith f as bs → 0 ≤ x
  | [], _, x, hx => absurd hx (by simp)
  | _ :: _, [], x, hx => absurd hx (by simp)
  | a :: as, b :: bs, x, hx => by
    rcases List.mem_cons.1 hx with h | h
    · exact h ▸ hf a b
    · exact zipWith_nonneg_mem f hf as bs x h

theorem rsiGains_mem_nonneg (values : List ℚ) (x : ℚ) (hx : x ∈ rsiGains values) : 0 ≤ x := by
  rcases List.mem_cons.1 hx with h | h
  · simp [h]
  · exact zipWith_nonneg_mem _ (fun a b => le_max_right _ _) values values.tail x h

theorem rsiLosses_mem_nonneg (values : List ℚ) (x : ℚ) (hx : x ∈ rsiLosses values) : 0 ≤ x := by
  rcases List.mem_cons.1 hx with h | h
  · simp [h]
  · exact zipWith_nonneg_mem _ (fun a b => le_max_right _ _) values values.tail x h

theorem rsi_initial_avg_nonneg (l : List ℚ) (p : ℕ) (hmem : ∀ x ∈ l, 0 ≤ x) :
    0 ≤ ((l.drop 1).take p).sum / (p : ℚ) :=
  div_nonneg
    (List.sum_nonneg fun x hx => hmem x (List.mem_of_mem_drop (List.mem_of_mem_take hx)))
    (Nat.cast_nonneg p)

theorem rsiLoop_bounds (period : ℕ) (hp : 1 ≤ period) :
    ∀ (pairs : List (ℚ × ℚ)) (g l : ℚ), 0 ≤ g → 0 ≤ l →
      (∀ gl ∈ pairs, 0 ≤ gl.1 ∧ 0 ≤ gl.2) →
      ∀ o ∈ rsiLoop period g l pairs, ∀ x, o = some x → 0 ≤ x ∧ x ≤ 100
  | [], _, _, _, _, _, o, ho => absurd ho (by simp [rsiLoop])
  | gl :: rest, g, l, hg, hl, hpair, o, ho => by
    have hp1 : (1 : ℚ) ≤ (period : ℚ) := by exact_mod_cast hp
    have hg2 : 0 ≤ (g * ((period : ℚ) - 1) + gl.1) / (period : ℚ) :=
      div_nonneg (add_nonneg (mul_nonneg hg (by linarith)) (hpair gl (by simp)).1)
        (by linarith)
    have hl2 : 0 ≤ (l * ((period : ℚ) - 1) + gl.2) / (period : ℚ) :=
      div_nonneg (add_nonneg (mul_nonneg hl (by linarith)) (hpair gl (by simp)).2)
        (by linarith)
    simp only [rsiLoop] at ho
    intro x hx
    rcases List.mem_cons.1 ho with h | h
    · rw [h, Option.some.injEq] at hx
      exact hx ▸ rsiVal_bounds _ _ hg2 hl2
    · exact rsiLoop_bounds period hp rest _ _ hg2 hl2
        (fun q hq => hpair q (List.mem_cons_of_mem gl hq)) o h x hx

theorem getD_none_some_mem (l : List (Option ℚ)) (i : ℕ) (x : ℚ)
    (h : l.getD i none = some x) : some x ∈ l := by
  rw [List.getD_eq_getElem?_getD] at h
  cases hli : l[i]? with
  | none => rw [hli] at h; simp at h
  | some o =>
    rw [hli] at h
    simp only [Option.getD_some] at h
    exact h ▸ List.getElem?_mem hli

/-- C7: every defined value of `relative_strength_index` lies in `[0, 100]`:
the emitted values are either `100` (zero average loss) or
`100 - 100/(1 + avg_gain/avg_loss)` with both running averages non-negative. -/
theorem C7_rsi_bounds (prices : List PriceRepresentable) (p i : ℕ) (x : ℚ)
    (hp : 1 ≤ p) (_hpn : p ≤ prices.length)
    (hx : (relative_strength_index prices p).getD i none = some x) :
    0 ≤ x ∧ x ≤ 100 := by
  have hmem := getD_none_some_mem _ _ _ hx
  have hgmem : ∀ y ∈ rsiGains (prices.map (fun b => b.close_price)), 0 ≤ y :=
    fun y hy => rsiGains_mem_nonneg _ y hy
  have hlmem : ∀ y ∈ rsiLosses (prices.map (fun b => b.close_price)), 0 ≤ y :=
    fun y hy => rsiLosses_mem_nonneg _ y hy
  have hg0 := rsi_initial_avg_nonneg (rsiGains (prices.map (fun b => b.close_price))) p hgmem
  have hl0 := rsi_initial_avg_nonneg (rsiLosses (prices.map (fun b => b.close_price))) p hlmem
  simp only [relative_strength_index] at hmem
  rcases List.mem_append.1 hmem with h | h
  · exact absurd (List.mem_replicate.1 h).2 (by simp)
  · rcases List.mem_cons.1 h with h | h
    · rw [Option.some.injEq] at h
      rw [h]
      exact rsiVal_bounds _ _ hg0 hl0
    · refine rsiLoop_bounds p hp _ _ _ hg0 hl0 ?_ (some x) h x rfl
      intro gl hgl
      obtain ⟨a, b⟩ := gl
      obtain ⟨h1, h2⟩ := List.of_mem_zip hgl
      exact ⟨rsiGains_mem_nonneg _ a (List.mem_of_mem_drop h1),
        rsiLosses_mem_nonneg _ b (List.mem_of_mem_drop h2)⟩

/-- Witness for C7 at `[1, 2, 3]` with period 2: the first defined RSI value
is `100` (strictly increasing closes give zero average loss). -/
theorem C7_rsi_bounds_witness :
    (1 : ℕ) ≤ 2
    ∧ (relative_strength_index [mkBar 1, mkBar 2, mkBar 3] 2).getD 2 none = some 100
    ∧ (0 ≤ (100 : ℚ) ∧ (100 : ℚ) ≤ 100) :=
  ⟨by decide,
   by norm_num [relative_strength_index, rsiGains, rsiLosses, rsiLoop, rsiVal, mkBar,
     List.replicate],
   C7_rsi_bounds [mkBar 1, mkBar 2, mkBar 3] 2 2 100 (by decide) (by decide)
     (by norm_num [relative_strength_index, rsiGains, rsiLosses, rsiLoop, rsiVal, mkBar,
       List.replicate])⟩

/-! ## Time conversion round trip -/

/-- C10: the claim that the round trip equals `t` with its sub-second part
truncated to zero is refuted half a second before the epoch: there
`int(t.timestamp())` truncates toward zero, so the round trip lands on the
epoch itself while zeroing the sub-second field of `t` would land one second
earlier (`⌊t⌋ = -1`). -/
theorem C10_counterexample :
    milliseconds_to_datatime (datatime_to_milliseconds (-(1 / 2) : ℚ))
      ≠ ((⌊(-(1 / 2) : ℚ)⌋ : ℤ) : ℚ) := by
  have hc : ⌈(-(1 / 2) : ℚ)⌉ = 0 := by
    rw [Int.ceil_eq_iff]
    norm_num
  norm_num [milliseconds_to_datatime, datatime_to_milliseconds, datatime_to_seconds, pyInt,
    hc]

/-- C10 (amended): `datatime_to_milliseconds` is always a multiple of 1000;
for `t` at or after the epoch the round trip yields `t` with its sub-second
part truncated (its floor in epoch seconds); for integral `t` the round trip
is the identity; before the epoch the truncation is toward zero, i.e. the
round trip yields `⌈t⌉`. -/
theorem C10_time_roundtrip (t : ℚ) :
    (1000 : ℤ) ∣ datatime_to_milliseconds t
    ∧ (0 ≤ t → milliseconds_to_datatime (datatime_to_milliseconds t) = ((⌊t⌋ : ℤ) : ℚ))
    ∧ (((⌊t⌋ : ℤ) : ℚ) = t → milliseconds_to_datatime (datatime_to_milliseconds t) = t)
    ∧ (t < 0 → milliseconds_to_datatime (datatime_to_milliseconds t) = ((⌈t⌉ : ℤ) : ℚ)) := by
  have hms : ∀ z : ℤ, milliseconds_to_datatime (z * 1000) = (z : ℚ) := by
    intro z
    rw [milliseconds_to_datatime]
    push_cast
    field_simp
  refine ⟨dvd_mul_left 1000 (datatime_to_seconds t), fun ht => ?_, fun ht => ?_,
    fun ht => ?_⟩
  · rw [datatime_to_milliseconds, hms, datatime_to_seconds, pyInt, if_pos ht]
  · have hceil : ((⌈t⌉ : ℤ) : ℚ) = t := by
      rw [show ⌈t⌉ = ⌈((⌊t⌋ : ℤ) : ℚ)⌉ by rw [ht], Int.ceil_intCast]
      exact ht
    rw [datatime_to_milliseconds, hms, datatime_to_seconds, pyInt]
    split
    · exact ht
    · exact hceil
  · rw [datatime_to_milliseconds, hms, datatime_to_seconds, pyInt, if_neg (by linarith)]

/-- Witness for C10 at `t = 7/2`: divisibility and the non-negative round
trip, with the hypothesis `0 ≤ 7/2` discharged concretely. -/
theorem C10_time_roundtrip_witness :
    (1000 : ℤ) ∣ datatime_to_milliseconds (7 / 2 : ℚ)
    ∧ milliseconds_to_datatime (datatime_to_milliseconds (7 / 2 : ℚ))
        = ((⌊(7 / 2 : ℚ)⌋ : ℤ) : ℚ) :=
  ⟨(C10_time_roundtrip (7 / 2)).1, (C10_time_roundtrip (7 / 2)).2.1 (by norm_num)⟩

/-! ## Fetch: limit handling, sorting, validation, termination -/

/-- C4 (code bug): with `limit = 1` and a page of two rows, `fetch` returns
both records — `limit + 1` of them, not the first `limit` truncated — because
the source checks `len(prices) > context.limit` only after appending and then
returns the whole accumulation without truncation. -/
theorem C4_limit_exceeded_returns_extra :
    fetch pageTwoRows ⟨0, 10, some 1⟩ 3
      = some ([klineToPrice ⟨1000, 1, 1, 1, 1, 1, 1999⟩,
               klineToPrice ⟨2000, 2, 2, 2, 2, 2, 2999⟩], 1)
    ∧ ([klineToPrice ⟨1000, 1, 1, 1, 1, 1, 1999⟩,
        klineToPrice ⟨2000, 2, 2, 2, 2, 2, 2999⟩] : List PriceRepresentable).length = 2 := by
  refine ⟨?_, rfl⟩
  norm_num [fetch, fetchLoop, pageTwoRows, appendPage, limitExceeded,
    datatime_to_milliseconds, datatime_to_seconds, pyInt]

/-- C5: refuted on both conjuncts.  First, a duplicate timestamp that survives
the sort is returned as-is (two records with open time 3000 across two pages;
no `DataIntegrityFault` exists in the source).  Second, the limit-exceeded
early return path skips the sort entirely and returns a descending sequence. -/
theorem C5_counterexample :
    (fetch upDup ⟨0, 10, none⟩ 5
       = some ([klineToPrice ⟨3000, 1, 1, 1, 1, 1, 4000⟩,
                klineToPrice ⟨3000, 2, 2, 2, 2, 2, 20000⟩], 2)
     ∧ (klineToPrice ⟨3000, 1, 1, 1, 1, 1, 4000⟩).timestamp
         = (klineToPrice ⟨3000, 2, 2, 2, 2, 2, 20000⟩).timestamp)
    ∧ (fetch upDescending ⟨0, 10, some 1⟩ 3
       = some ([klineToPrice ⟨5000, 1, 1, 1, 1, 1, 5999⟩,
                klineToPrice ⟨3000, 2, 2, 2, 2, 2, 3999⟩], 1)
     ∧ ¬ (klineToPrice ⟨5000, 1, 1, 1, 1, 1, 5999⟩).timestamp
         ≤ (klineToPrice ⟨3000, 2, 2, 2, 2, 2, 3999⟩).timestamp) := by
  refine ⟨⟨?_, ?_⟩, ?_, ?_⟩
  · have hs : sortPrices [klineToPrice ⟨3000, 1, 1, 1, 1, 1, 4000⟩,
        klineToPrice ⟨3000, 2, 2, 2, 2, 2, 20000⟩]
        = [klineToPrice ⟨3000, 1, 1, 1, 1, 1, 4000⟩,
           klineToPrice ⟨3000, 2, 2, 2, 2, 2, 20000⟩] :=
      List.mergeSort_of_sorted (by norm_num [klineToPrice, milliseconds_to_datatime])
    norm_num [fetch, fetchLoop, upDup, appendPage, limitExceeded, nextCursor,
      datatime_to_milliseconds, datatime_to_seconds, pyInt, hs]
  · norm_num [klineToPrice, milliseconds_to_datatime]
  · norm_num [fetch, fetchLoop, upDescending, appendPage, limitExceeded,
      datatime_to_milliseconds, datatime_to_seconds, pyInt]
  · norm_num [klineToPrice, milliseconds_to_datatime]

theorem appendPage_no_limit (acc : List PriceRepresentable) (ks : List Kline) :
    appendPage none acc ks = .inr (acc ++ ks.map klineToPrice) := by
  induction ks generalizing acc with
  | nil => simp [appendPage]
  | cons k ks ih => simp [appendPage, limitExceeded, ih]

theorem sortPrices_sorted (l : List PriceRepresentable) :
    (sortPrices l).Pairwise (fun a b => a.timestamp ≤ b.timestamp) := by
  unfold sortPrices
  refine List.Pairwise.imp ?_ (List.sorted_mergeSort ?_ ?_ l)
  · intro a b hab
    simpa using hab
  · intro a b c hab hbc
    simp only [decide_eq_true_eq] at hab hbc ⊢
    exact le_trans hab hbc
  · intro a b
    simpa [Bool.or_eq_true, decide_eq_true_eq] using le_total a.timestamp b.timestamp

theorem fetchLoop_sorted_of_no_limit (upstream : ℤ → List Kline) (endTime : ℤ) :
    ∀ (fuel : ℕ) (cursor : ℤ) (acc : List PriceRepresentable) (calls : ℕ)
      (res : List PriceRepresentable) (n : ℕ),
      fetchLoop upstream endTime none fuel cursor acc calls = some (res, n) →
      res.Pairwise (fun a b => a.timestamp ≤ b.timestamp)
  | 0, cursor, acc, calls, res, n, h => by simp [fetchLoop] at h
  | fuel + 1, cursor, acc, calls, res, n, h => by
    rw [fetchLoop] at h
    split at h
    · split at h
      · simp only [Option.some.injEq, Prod.mk.injEq] at h
        rw [← h.1]
        exact sortPrices_sorted acc
      · rw [appendPage_no_limit] at h
        exact fetchLoop_sorted_of_no_limit upstream endTime fuel _ _ _ res n h
    · simp only [Option.some.injEq, Prod.mk.injEq] at h
      rw [← h.1]
      exact sortPrices_sorted acc

/-- C6: refuted — a context whose start time exceeds its end time is not
rejected: `fetch` performs no validation, raises nothing, issues zero
upstream requests (even against an upstream that would return data) and
returns the empty series. -/
theorem C6_counterexample :
    fetch (fun _ => [⟨0, 1, 1, 1, 1, 1, 0⟩]) ⟨10, 5, none⟩ 1 = some ([], 0) := by
  norm_num [fetch, fetchLoop, sortPrices, datatime_to_milliseconds, datatime_to_seconds,
    pyInt]

/-- C6 (amended): no `InvalidRequest` is raised; whenever the millisecond
conversion of the start time exceeds that of the end time, `fetch` issues no
upstream request and returns the empty sequence. -/
theorem C6_no_validation (upstream : ℤ → List Kline) (context : PriceProviderContext)
    (fuel : ℕ) (hfuel : 1 ≤ fuel)
    (hlt : datatime_to_milliseconds context.end_time
        < datatime_to_milliseconds context.start_time) :
    fetch upstream context fuel = some ([], 0) := by
  obtain ⟨f, rfl⟩ : ∃ f, fuel = f + 1 := ⟨fuel - 1, by omega⟩
  rw [fetch, fetchLoop, if_neg (by omega)]
  simp [sortPrices]

/-- Witness for C6: concrete start 10 s, end 5 s, arbitrary upstream. -/
theorem C6_no_validation_witness :
    fetch (fun _ => []) ⟨10, 5, none⟩ 4 = some ([], 0) :=
  C6_no_validation (fun _ => []) ⟨10, 5, none⟩ 4 (by norm_num)
    (by norm_num [datatime_to_milliseconds, datatime_to_seconds, pyInt])

/-- C5 (amended): with no per-call limit (so the early-return path cannot
fire), every sequence `fetch` returns is sorted non-strictly ascending by
timestamp; duplicates are not detected — the sequence is returned, never a
fault (cf. the counterexample for the two refuted conjuncts). -/
theorem C5_sorted_when_unlimited (upstream : ℤ → List Kline)
    (context : PriceProviderContext) (fuel : ℕ)
    (res : List PriceRepresentable) (calls : ℕ)
    (hlim : context.limit = none)
    (h : fetch upstream context fuel = some (res, calls)) :
    res.Pairwise (fun a b => a.timestamp ≤ b.timestamp) := by
  rw [fetch, hlim] at h
  exact fetchLoop_sorted_of_no_limit _ _ fuel _ _ _ res calls h

/-- Witness for C5 at a two-page unlimited fetch with out-of-order pages is
unnecessary; a one-call empty fetch already exercises the theorem. -/
theorem C5_sorted_when_unlimited_witness :
    (([] : List PriceRepresentable)).Pairwise
      (fun a b => a.timestamp ≤ b.timestamp) :=
  C5_sorted_when_unlimited (fun _ => []) ⟨0, 0, none⟩ 1 [] 1 rfl
    (by norm_num [fetch, fetchLoop, sortPrices, datatime_to_milliseconds,
      datatime_to_seconds, pyInt])

theorem fetchLoop_terminates (upstream : ℤ → List Kline) (endTime : ℤ)
    (limit : Option ℕ)
    (hup : ∀ c k, k ∈ upstream c → c ≤ k.closeTime) :
    ∀ (fuel : ℕ) (cursor : ℤ) (acc : List PriceRepresentable) (calls : ℕ),
      (endTime + 2 - cursor).toNat + 1 ≤ fuel →
      (fetchLoop upstream endTime limit fuel cursor acc calls).isSome
  | 0, cursor, acc, calls, hfuel => by omega
  | fuel + 1, cursor, acc, calls, hfuel => by
    rw [fetchLoop]
    split
    · rename_i hcur
      split
      · simp
      · rename_i k ks hu
        split
        · simp
        · rename_i acc2 hap
          obtain ⟨klast, hkl⟩ : ∃ klast, (k :: ks).getLast? = some klast :=
            ⟨_, List.getLast?_eq_getLast _ (by simp)⟩
          have hmem : klast ∈ upstream cursor := by
            rw [hu]
            exact List.mem_of_mem_getLast? hkl
          have hle : cursor ≤ klast.closeTime := hup cursor klast hmem
          have hnext : nextCursor (k :: ks) = klast.closeTime + 1 := by
            unfold nextCursor
            rw [hkl]
          refine fetchLoop_terminates upstream endTime limit hup fuel
            (nextCursor (k :: ks)) acc2 (calls + 1) ?_
          omega
    · simp

/-- C9: under the upstream guarantee that every returned record's close time
is at or after the requested cursor, the pagination loop terminates — the
cursor strictly increases each page, so fuel covering the window suffices.
A window shorter than one page is the instance where the first page's close
time already pushes the cursor past the end. -/
theorem C9_fetch_terminates (upstream : ℤ → List Kline)
    (context : PriceProviderContext) (fuel : ℕ)
    (hup : ∀ c k, k ∈ upstream c → c ≤ k.closeTime)
    (hfuel : (datatime_to_milliseconds context.end_time + 2
        - datatime_to_milliseconds context.start_time).toNat + 1 ≤ fuel) :
    (fetch upstream context fuel).isSome :=
  fetchLoop_terminates upstream _ context.limit hup fuel _ [] 0 hfuel

/-- Witness for C9: an end-of-history upstream over a zero-length window. -/
theorem C9_fetch_terminates_witness :
    (fetch (fun _ => []) ⟨0, 0, none⟩ 3).isSome :=
  C9_fetch_terminates (fun _ => []) ⟨0, 0, none⟩ 3
    (fun c k hk => absurd hk (List.not_mem_nil k))
    (by simp [datatime_to_milliseconds, datatime_to_seconds, pyInt])

/-! ## MACD alignment -/

theorem zipWith_subtractDefined_getD (a b : List (Option ℚ)) (i : ℕ)
    (ha : i < a.length) (hb : i < b.length) :
    (List.zipWith subtractDefined a b).getD i none
      = subtractDefined (a.getD i none) (b.getD i none) := by
  rw [List.getD_eq_getElem?_getD, List.getD_eq_getElem?_getD, List.getD_eq_getElem?_getD,
    List.getElem?_zipWith, List.getElem?_eq_getElem ha, List.getElem?_eq_getElem hb]
  simp

/-- C8: with each EMA precondition satisfied (`max(fast, slow) - 1 + signal ≤
len(S)`), all three MACD sequences have length `len(S)`, and at every index
the histogram is the `subtractDefined` combination of the MACD line and the
signal line — defined exactly where both are defined, equal to their
difference there. -/
theorem C8_macd_alignment (prices : List PriceRepresentable) (f s g i : ℕ)
    (hf : 1 ≤ f) (hs : 1 ≤ s) (hg : 1 ≤ g)
    (hn : max f s - 1 + g ≤ prices.length) :
    (moving_average_convergence_divergence prices f s g).1.length = prices.length
    ∧ (moving_average_convergence_divergence prices f s g).2.1.length = prices.length
    ∧ (moving_average_convergence_divergence prices f s g).2.2.length = prices.length
    ∧ (i < prices.length →
        (moving_average_convergence_divergence prices f s g).2.2.getD i none
          = subtractDefined
              ((moving_average_convergence_divergence prices f s g).1.getD i none)
              ((moving_average_convergence_divergence prices f s g).2.1.getD i none)) := by
  have hfn : f ≤ prices.length := by omega
  have hsn : s ≤ prices.length := by omega
  have hgn : g ≤ prices.length := by omega
  have h1 := macd_line_length prices f s g hf hs hfn hsn
  have h2 := macd_signal_length prices f s g hf hs hg hfn hsn hgn
  refine ⟨h1, h2, macd_histgram_length prices f s g hf hs hg hfn hsn hgn, fun hi => ?_⟩
  have he : (moving_average_convergence_divergence prices f s g).2.2
      = List.zipWith subtractDefined (moving_average_convergence_divergence prices f s g).1
          (moving_average_convergence_divergence prices f s g).2.1 := rfl
  rw [he, zipWith_subtractDefined_getD _ _ i (by omega) (by omega)]

/-- Witness for C8 at a two-bar series with all periods 1, index 1. -/
theorem C8_macd_alignment_witness :
    (moving_average_convergence_divergence [mkBar 1, mkBar 2] 1 1 1).1.length
        = ([mkBar 1, mkBar 2] : List PriceRepresentable).length
    ∧ (moving_average_convergence_divergence [mkBar 1, mkBar 2] 1 1 1).2.1.length
        = ([mkBar 1, mkBar 2] : List PriceRepresentable).length
    ∧ (moving_average_convergence_divergence [mkBar 1, mkBar 2] 1 1 1).2.2.length
        = ([mkBar 1, mkBar 2] : List PriceRepresentable).length
    ∧ (1 < ([mkBar 1, mkBar 2] : List PriceRepresentable).length →
        (moving_average_convergence_divergence [mkBar 1, mkBar 2] 1 1 1).2.2.getD 1 none
          = subtractDefined
              ((moving_average_convergence_divergence [mkBar 1, mkBar 2] 1 1 1).1.getD 1 none)
              ((moving_average_convergence_divergence [mkBar 1, mkBar 2] 1 1 1).2.1.getD 1
                none)) :=
  C8_macd_alignment [mkBar 1, mkBar 2] 1 1 1 1 (by decide) (by decide) (by decide)
    (by decide)

end Kylaris
